import Mathlib

/-!
Verification of the Attic CLI client (protocol codec, buffered socket reader,
socket discovery, command translator, REPL dispatcher) against its
natural-language specification.

Python strings are modelled as `List Char`; Python `int` as `Int`; fallible
operations (those that raise) as `Option`.  Every definition is translated
from the repository's Python sources:
  - attic_cli/protocol.py          (frame codec)
  - attic_cli/cli_client.py        (socket client, discovery, escaping)
  - attic_cli/translator.py        (per-mode command translation)
  - attic_cli/repl.py              (REPL dispatcher batch loop)

Layout: all definitions first, then the theorems (supporting lemmas and one
theorem per claim).
-/

namespace Attic

/-- Python `str` values are modelled as lists of characters. -/
abbrev Str := List Char

/-- A Lean string literal viewed in the character-list model. -/
def str (s : String) : Str := s.data

/-- Python `line.startswith(pre)`. -/
def startsWith : Str → Str → Bool
  | [], _ => true
  | _ :: _, [] => false
  | p :: ps, c :: cs => p == c && startsWith ps cs

/-! ## Frame codec (attic_cli/protocol.py) -/

/-- `MULTI_LINE_SEP = "\x1e"`: multi-line payloads join lines with ASCII 0x1E. -/
def MULTI_LINE_SEP : Char := '\x1e'

/-- Parsed server response (`CLIResponse` dataclass). -/
structure CLIResponse where
  success : Bool
  payload : Str
  is_multiline : Bool
deriving DecidableEq

/-- `CLIResponse.lines`: split a multi-line payload into individual lines;
a non-multiline response yields `[payload]` when non-empty, `[]` otherwise. -/
def CLIResponse.lines (r : CLIResponse) : List Str :=
  if r.is_multiline then r.payload.splitOn MULTI_LINE_SEP
  else if r.payload ≠ [] then [r.payload] else []

/-- `parse_response(raw)`: strip `OK:` / `ERR:` and build the `CLIResponse`;
any other line raises `ValueError` (modelled as `none`).  The payload of an
`OK:` line is `raw[3:]`, of an `ERR:` line `raw[4:]`; `is_multiline` is
`MULTI_LINE_SEP in payload` for `OK:` and literally `False` for `ERR:`. -/
def parse_response (raw : Str) : Option CLIResponse :=
  if startsWith (str "OK:") raw then
    let payload := raw.drop 3
    some ⟨true, payload, payload.contains MULTI_LINE_SEP⟩
  else if startsWith (str "ERR:") raw then
    some ⟨false, raw.drop 4, false⟩
  else
    none

/-- Parsed async event (`CLIEvent` dataclass). -/
structure CLIEvent where
  kind : Str
  data : Str
deriving DecidableEq

/-- `parse_event(raw)`: drop the 6-character event marker and split the body
on the first literal space: everything before is the kind, everything after
(or the empty string) is the data (`body.split(" ", 1)`). -/
def parse_event (raw : Str) : CLIEvent :=
  let body := raw.drop 6
  if ' ' ∈ body then
    ⟨body.takeWhile (fun c => c ≠ ' '), (body.dropWhile (fun c => c ≠ ' ')).tail⟩
  else
    ⟨body, []⟩

/-- A classified incoming frame: a command reply or an async event. -/
inductive Frame where
  | reply (r : CLIResponse)
  | event (e : CLIEvent)
deriving DecidableEq

/-- One line's classification as `CLISocketClient._read_response` performs it:
an `EVENT:` line is parsed as an event, anything else goes through
`parse_response` (which raises — `none` — on an unknown marker). -/
def classify (line : Str) : Option Frame :=
  if startsWith (str "EVENT:") line then
    some (.event (parse_event line))
  else
    (parse_response line).map .reply

/-! ## Buffered line reassembly (`CLISocketClient._read_line_raw`) -/

/-- One outcome of `self._sock.recv(MAX_RECV)` inside the read loop: a chunk
of bytes (the empty chunk is the zero-length read signalling the peer
closed), a `socket.timeout`, or an `OSError`. -/
inductive ReadEvent where
  | chunk (data : Str)
  | timeout
  | oserror
deriving DecidableEq

/-- Which `CLIConnectionError` message a failed read raises: timed out,
socket error, or server closed connection. -/
inductive ReadFailure where
  | timedOut
  | socketError
  | serverClosed
deriving DecidableEq

/-- Result of one `_read_line_raw` call: a complete line (without its trailing
newline) together with the retained buffer, the connected flag and the unread
rest of the stream; a raised `CLIConnectionError` with the connected flag and
buffer as the method leaves them; or `waiting` when the modelled finite stream
is exhausted with no complete line (the real call stays blocked in `recv`). -/
inductive ReadOutcome where
  | line (l : Str) (buffer : Str) (connected : Bool) (rest : List ReadEvent)
  | connError (failure : ReadFailure) (connected : Bool) (buffer : Str)
  | waiting (connected : Bool) (buffer : Str)
deriving DecidableEq

/-- `_read_line_raw`: while no newline is buffered, `recv` once more; a
timeout raises without touching `_connected`, an `OSError` and a zero-length
read set `_connected = False` and raise; a received chunk is appended to the
buffer.  Once the buffer holds a newline, split at the first occurrence:
the part before it is the returned line, the part after stays buffered. -/
def readLineRaw (connected : Bool) : Str → List ReadEvent → ReadOutcome
  | buffer, evts =>
    if '\n' ∈ buffer then
      .line (buffer.takeWhile (fun c => c ≠ '\n'))
        ((buffer.dropWhile (fun c => c ≠ '\n')).tail) connected evts
    else
      match evts with
      | [] => .waiting connected buffer
      | .timeout :: _ => .connError .timedOut connected buffer
      | .oserror :: _ => .connError .socketError false buffer
      | .chunk [] :: _ => .connError .serverClosed false buffer
      | .chunk (c :: cs) :: rest => readLineRaw connected (buffer ++ c :: cs) rest

/-- The incremental buffered reader iterated over a whole stream of received
chunks: while a newline is buffered, extract the line before the first
newline and retain the remainder (exactly the split `_read_line_raw`
performs); otherwise append the next received chunk to the buffer; stop when
the stream is exhausted. -/
def drainLines (buffer : Str) (chunks : List Str) : List Str :=
  if '\n' ∈ buffer then
    buffer.takeWhile (fun c => c ≠ '\n')
      :: drainLines ((buffer.dropWhile (fun c => c ≠ '\n')).tail) chunks
  else
    match chunks with
    | [] => []
    | c :: cs => drainLines (buffer ++ c) cs
termination_by (buffer.length + (chunks.map List.length).sum + chunks.length, chunks.length)
decreasing_by
  · refine Prod.Lex.left _ _ ?_
    have hne : buffer.dropWhile (fun c => c ≠ '\n') ≠ [] := by
      intro hcon
      rw [List.dropWhile_eq_nil_iff] at hcon
      rename_i hnl
      have := hcon '\n' hnl
      simp at this
    have h1 : (buffer.dropWhile (fun c => c ≠ '\n')).length ≤ buffer.length := by
      have hgen : ∀ (p : Char → Bool) (l : Str), (l.dropWhile p).length ≤ l.length := by
        intro p l
        induction l with
        | nil => simp
        | cons a t ih =>
          by_cases h : p a <;> simp [List.dropWhile_cons, h] <;> omega
      exact hgen _ buffer
    have h2 : (buffer.dropWhile (fun c => c ≠ '\n')).tail.length
        < (buffer.dropWhile (fun c => c ≠ '\n')).length := by
      cases hd : buffer.dropWhile (fun c => c ≠ '\n') with
      | nil => exact absurd hd hne
      | cons a l => simp
    omega
  · refine Prod.Lex.left _ _ ?_
    simp
    omega

def specLines (s : Str) : List Str := (s.splitOn '\n').dropLast

/-! ## Python string helpers used by the translator and dispatcher -/

/-- The whitespace characters of Python `str.split()` / `str.strip()`
(the ASCII ones; the commands involved are ASCII-only). -/
def pySpace (c : Char) : Bool :=
  c = ' ' || c = '\t' || c = '\n' || c = '\x0b' || c = '\x0c' || c = '\r'

/-- Python `line.split(None, 1)`: skip leading whitespace; the first
whitespace-delimited token, then the remainder with its leading whitespace
removed (dropped entirely when the remainder is blank). -/
def splitWs1 (s : Str) : List Str :=
  let s1 := s.dropWhile pySpace
  if s1 = [] then []
  else
    let tok := s1.takeWhile (fun c => !pySpace c)
    let rest := (s1.dropWhile fun c => !pySpace c).dropWhile pySpace
    if rest = [] then [tok] else [tok, rest]

/-- Accumulator worker for Python `s.split()` (split on whitespace runs). -/
def splitWsAux (cur : Str) : Str → List Str
  | [] => if cur = [] then [] else [cur.reverse]
  | c :: rest =>
    if pySpace c then
      if cur = [] then splitWsAux [] rest else cur.reverse :: splitWsAux [] rest
    else splitWsAux (c :: cur) rest

/-- Python `s.split()` with no arguments: all whitespace-delimited tokens. -/
def splitWs (s : Str) : List Str := splitWsAux [] s

/-- Python `s.strip()`: remove leading and trailing whitespace. -/
def pyStrip (s : Str) : Str :=
  ((s.dropWhile pySpace).reverse.dropWhile pySpace).reverse

/-- The value of an ASCII decimal digit, `none` for any other character. -/
def decDigit (c : Char) : Option Nat :=
  if c.isDigit then some (c.toNat - 48) else none

/-- The value of an ASCII hexadecimal digit, `none` otherwise. -/
def hexDigit (c : Char) : Option Nat :=
  if c.isDigit then some (c.toNat - 48)
  else if 'a' ≤ c ∧ c ≤ 'f' then some (c.toNat - 87)
  else if 'A' ≤ c ∧ c ≤ 'F' then some (c.toNat - 55)
  else none

/-- Digits-only numeral parse in the given base via a digit reader. -/
def parseDigits (digit : Char → Option Nat) (base : Nat) (s : Str) : Option Nat :=
  if s = [] then none
  else
    s.foldl (fun acc c =>
      match acc, digit c with
      | some a, some d => some (a * base + d)
      | _, _ => none) (some 0)

/-- Python `int(s)` (base 10): strip whitespace, optional sign, then decimal
digits; anything else raises `ValueError` (`none`).  Digit-group underscores,
accepted by Python, are not modelled — no caller passes them. -/
def pyIntDec (s : Str) : Option Int :=
  let t := pyStrip s
  if t.head? = some '-' then (parseDigits decDigit 10 t.tail).map (fun n => -(n : Int))
  else if t.head? = some '+' then (parseDigits decDigit 10 t.tail).map (fun n => (n : Int))
  else (parseDigits decDigit 10 t).map (fun n => (n : Int))

/-- Python `int(s, 16)`: as `pyIntDec` but hexadecimal (an optional `0x`
marker, accepted by Python, is not modelled — no caller passes one). -/
def pyIntHex (s : Str) : Option Int :=
  let t := pyStrip s
  if t.head? = some '-' then (parseDigits hexDigit 16 t.tail).map (fun n => -(n : Int))
  else if t.head? = some '+' then (parseDigits hexDigit 16 t.tail).map (fun n => (n : Int))
  else (parseDigits hexDigit 16 t).map (fun n => (n : Int))

/-- Python `text.replace(c, rep)` for a single-character pattern. -/
def replaceChar (c : Char) (rep : Str) : Str → Str
  | [] => []
  | x :: xs =>
    if x = c then rep ++ replaceChar c rep xs else x :: replaceChar c rep xs

/-- `escape_for_inject(text)` (cli_client.py): escape backslash first, then
newline, tab, carriage return, and space, in that order. -/
def escape_for_inject (text : Str) : Str :=
  replaceChar ' ' (str "\\s")
    (replaceChar '\r' (str "\\r")
      (replaceChar '\t' (str "\\t")
        (replaceChar '\n' (str "\\n")
          (replaceChar '\\' (str "\\\\") text))))

/-- The escaping order as the spec sentence lists it: backslash first, then
space, newline, tab, carriage return. -/
def escapeSpecOrder (text : Str) : Str :=
  replaceChar '\r' (str "\\r")
    (replaceChar '\t' (str "\\t")
      (replaceChar '\n' (str "\\n")
        (replaceChar ' ' (str "\\s")
          (replaceChar '\\' (str "\\\\") text))))

/-! ## Command translator (attic_cli/translator.py) -/

/-- `translate_monitor(line)`: dispatch on the lower-cased first token;
`none` models the `IndexError` on blank input (the REPL only passes trimmed,
non-empty lines). -/
def translateMonitor (line : Str) : Option (List Str) :=
  match splitWs1 line with
  | [] => none
  | tok :: restParts =>
    let cmd := tok.map Char.toLower
    let args := match restParts with
      | [a] => a
      | _ => []
    some <|
      if cmd = str "g" then
        if args ≠ [] then [str "registers pc=" ++ args, str "resume"] else [str "resume"]
      else if cmd = str "s" then
        if args ≠ [] then [str "step " ++ args] else [str "step"]
      else if cmd = str "p" ∨ cmd = str "pause" then [str "pause"]
      else if cmd = str "until" then
        if args ≠ [] then [str "run_until " ++ args] else [str "run_until"]
      else if cmd = str "r" then
        if args ≠ [] then [str "registers " ++ args] else [str "registers"]
      else if cmd = str "m" then
        if args ≠ [] then [str "read " ++ args] else [str "read"]
      else if cmd = str ">" then
        if args ≠ [] then [str "write " ++ args] else [str "write"]
      else if cmd = str "f" then
        if args ≠ [] then [str "fill " ++ args] else [str "fill"]
      else if cmd = str "d" then
        if args ≠ [] then [str "disassemble " ++ args] else [str "disassemble"]
      else if cmd = str "a" then
        if args ≠ [] then [str "assemble " ++ args] else [str "assemble"]
      else if cmd = str "b" ∨ cmd = str "bp" then
        if args ≠ [] then [str "breakpoint set " ++ args] else [str "breakpoint list"]
      else if cmd = str "bc" then
        if args = str "*" then [str "breakpoint clearall"]
        else if args ≠ [] then [str "breakpoint clear " ++ args]
        else [str "breakpoint list"]
      else if cmd = str "bl" then [str "breakpoint list"]
      else [line]

/-- The editor-mode tokens `translate_basic` recognizes (upper-cased). -/
def recognizedBasic (cmd : Str) : Bool :=
  cmd = str "LIST" || cmd = str "DEL" || cmd = str "STOP" || cmd = str "CONT"
    || cmd = str "VARS" || cmd = str "VAR" || cmd = str "INFO"
    || cmd = str "EXPORT" || cmd = str "IMPORT" || cmd = str "DIR"
    || cmd = str "RENUM" || cmd = str "SAVE" || cmd = str "LOAD"

/-- `translate_basic(line, atascii)`: dispatch on the upper-cased first
token; any unrecognized input is escaped and wrapped as one inject command
with the escape sequence for enter appended. -/
def translateBasic (line : Str) (atascii : Bool) : Option (List Str) :=
  match splitWs1 line with
  | [] => none
  | tok :: restParts =>
    let cmd := tok.map Char.toUpper
    let args := match restParts with
      | [a] => a
      | _ => []
    some <|
      if cmd = str "LIST" then
        let suffix := if atascii then str " atascii" else []
        if args ≠ [] then [str "basic list " ++ args ++ suffix]
        else [str "basic list" ++ suffix]
      else if cmd = str "DEL" then
        if args ≠ [] then [str "basic del " ++ args] else [str "basic del"]
      else if cmd = str "STOP" then [str "basic stop"]
      else if cmd = str "CONT" then [str "basic cont"]
      else if cmd = str "VARS" then [str "basic vars"]
      else if cmd = str "VAR" then
        if args ≠ [] then [str "basic var " ++ args] else [str "basic vars"]
      else if cmd = str "INFO" then [str "basic info"]
      else if cmd = str "EXPORT" then
        if args ≠ [] then [str "basic export " ++ args] else [str "basic export"]
      else if cmd = str "IMPORT" then
        if args ≠ [] then [str "basic import " ++ args] else [str "basic import"]
      else if cmd = str "DIR" then
        if args ≠ [] then [str "basic dir " ++ args] else [str "basic dir"]
      else if cmd = str "RENUM" then
        if args ≠ [] then [str "basic renum " ++ args] else [str "basic renum"]
      else if cmd = str "SAVE" then
        if args ≠ [] then [str "basic save " ++ args] else [str "basic save"]
      else if cmd = str "LOAD" then
        if args ≠ [] then [str "basic load " ++ args] else [str "basic load"]
      else [str "inject keys " ++ escape_for_inject line ++ str "\\n"]

/-! ## REPL dispatcher batch loop (attic_cli/repl.py, run_repl lines 126-177) -/

/-- The dispatcher state the batch loop reads and writes: current mode
string, current DOS drive, assembly sub-mode flag and its address cursor. -/
structure ReplState where
  mode : Str
  currentDrive : Int
  inAssembly : Bool
  assemblyAddr : Int
deriving DecidableEq

/-- Drive number parsed from a `dos cd` reply payload:
`int(payload[1:payload.index(":")])`, with both the missing-colon
`ValueError` of `index` and the parse `ValueError` of `int` caught
(`none`). -/
def driveFromPayload (payload : Str) : Option Int :=
  if ':' ∈ payload then
    pyIntDec ((payload.takeWhile (fun c => c ≠ ':')).drop 1)
  else none

/-- The two drive-tracking side effects of a successful non-sentinel reply:
a `dos cd` command with a `D`-payload updates the drive from the payload,
and an `unmount` of the currently selected drive resets it to 1
(`int(cmd.split()[1])`, `ValueError`/`IndexError` ignored). -/
def applyDriveUpdates (cmd payload : Str) (drive : Int) : Int :=
  let d1 :=
    if startsWith (str "dos cd ") cmd && startsWith (str "D") payload then
      match driveFromPayload payload with
      | some k => k
      | none => drive
    else drive
  if startsWith (str "unmount ") cmd then
    match (splitWs cmd).get? 1 with
    | some t =>
      match pyIntDec t with
      | some k => if k = d1 then 1 else d1
      | none => d1
    | none => d1
  else d1

/-- Assembly cursor parsed from an `ASM $` payload:
`int(payload[5:].strip(), 16)`, `0` on `ValueError`. -/
def asmAddrOf (payload : Str) : Int :=
  match pyIntHex (pyStrip (payload.drop 5)) with
  | some v => v
  | none => 0

/-- State effect of one successful reply in the batch loop: an `ASM $`
payload enters the assembly sub-mode with the parsed cursor (skipping the
drive tracking and normal rendering); any other payload applies the drive
updates. -/
def processReply (st : ReplState) (cmd payload : Str) : ReplState :=
  if startsWith (str "ASM $") payload then
    { st with inAssembly := true, assemblyAddr := asmAddrOf payload }
  else
    { st with currentDrive := applyDriveUpdates cmd payload st.currentDrive }

/-- One exchange as seen by the batch loop: a parsed reply from
`client.send`, or an exception raised by it. -/
inductive SendResult where
  | resp (r : CLIResponse)
  | exc
deriving DecidableEq

/-- The `for cmd in commands` loop of `run_repl`: send each command in
order, consuming one exchange per command; a successful reply applies its
state effect and the loop continues (also after the `ASM $` sentinel, whose
branch ends in `continue`); an error reply only renders; an exception
`break`s out of the batch.  Returns the final state and the list of commands
sent, in order. -/
def runBatch : ReplState → List Str → List SendResult → ReplState × List Str
  | st, [], _ => (st, [])
  | st, cmd :: _, [] => (st, [cmd])
  | st, cmd :: rest, res :: more =>
    match res with
    | .exc => (st, [cmd])
    | .resp r =>
      if r.success then
        let next := runBatch (processReply st cmd r.payload) rest more
        (next.1, cmd :: next.2)
      else
        let next := runBatch st rest more
        (next.1, cmd :: next.2)

/-- Decimal value of an all-digit string, most significant digit first. -/
def natOfDec (ds : Str) : Nat :=
  ds.foldl (fun a c => a * 10 + (c.toNat - 48)) 0

/-! ## Socket discovery (`CLISocketClient.discover_socket`) -/

/-- One scanned `/tmp/attic-*.sock` entry: its path, the process id parsed
from the basename (`int` of the text between the fixed marker and suffix;
`none` models the `ValueError` that makes the loop `continue`), and its
modification timestamp (an ordered stamp standing for `os.path.getmtime`). -/
structure ScanEntry where
  path : Str
  pid : Option Int
  mtime : Int
deriving DecidableEq

/-- `_pid_alive(pid)` holds for this entry (entries with an unparseable
basename are skipped and count as neither live nor stale). -/
def entryLive (alive : Int → Bool) (e : ScanEntry) : Bool :=
  match e.pid with
  | some p => alive p
  | none => false

/-- The entry's owning process is dead: it gets unlinked (best-effort; the
swallowed `OSError` of `unlink` does not affect the result). -/
def entryStale (alive : Int → Bool) (e : ScanEntry) : Bool :=
  match e.pid with
  | some p => !alive p
  | none => false

/-- Python's ordering of the `(mtime, path)` tuples the candidates list
holds: by timestamp, ties by path. -/
def candLe (a b : Int × Str) : Bool :=
  decide (a.1 < b.1 ∨ (a.1 = b.1 ∧ a.2 ≤ b.2))

/-- `discover_socket`: collect `(mtime, path)` for entries with a live
owner, unlink stale entries, return `none` with no candidates, else sort
most-recent-first (`candidates.sort(reverse=True)`) and return the first
path.  Returns the chosen path and the list of unlinked paths. -/
def discover_socket (alive : Int → Bool) (entries : List ScanEntry) :
    Option Str × List Str :=
  let candidates := (entries.filter (entryLive alive)).map fun e => (e.mtime, e.path)
  let deleted := (entries.filter (entryStale alive)).map fun e => e.path
  if candidates.isEmpty then (none, deleted)
  else
    let sorted := (candidates.mergeSort candLe).reverse
    (sorted.head?.map fun c => c.2, deleted)

/-! ## Theorems -/

/-! ### Basic facts about `startsWith` -/

theorem startsWith_iff_append (p s : Str) :
    startsWith p s = true ↔ ∃ t, s = p ++ t := by
  induction p generalizing s with
  | nil => simp [startsWith]
  | cons a ps ih =>
    cases s with
    | nil => simp [startsWith]
    | cons c cs =>
      simp only [startsWith, Bool.and_eq_true, beq_iff_eq]
      constructor
      · rintro ⟨rfl, h⟩
        obtain ⟨t, rfl⟩ := (ih cs).1 h
        exact ⟨t, rfl⟩
      · rintro ⟨t, ht⟩
        cases ht
        exact ⟨rfl, (ih _).2 ⟨t, rfl⟩⟩

theorem startsWith_append (p t : Str) : startsWith p (p ++ t) = true :=
  (startsWith_iff_append p (p ++ t)).2 ⟨t, rfl⟩

/-- C4: classifying `"OK:" + p` yields a success reply with payload exactly `p`,
classifying `"ERR:" + p` yields a failure reply with payload exactly `p`
(prefix stripping loses no information), and classification raises the
malformed-frame `ValueError` (returns `none`) exactly when the line starts
with none of the three literal markers `OK:`, `ERR:`, `EVENT:`. -/
theorem claim_C4_classify_prefixes :
    (∀ p : Str,
      classify (str "OK:" ++ p) = some (.reply ⟨true, p, p.contains MULTI_LINE_SEP⟩)
      ∧ classify (str "ERR:" ++ p) = some (.reply ⟨false, p, false⟩))
    ∧ ∀ line : Str, classify line = none ↔
        startsWith (str "OK:") line = false ∧ startsWith (str "ERR:") line = false
        ∧ startsWith (str "EVENT:") line = false := by
  constructor
  · intro p
    constructor
    · have hok : startsWith (str "OK:") (str "OK:" ++ p) = true := startsWith_append _ _
      simp [classify, parse_response, str, startsWith, hok]
    · have herr : startsWith (str "ERR:") (str "ERR:" ++ p) = true := startsWith_append _ _
      simp [classify, parse_response, str, startsWith, herr]
  · intro line
    unfold classify parse_response
    rcases hev : startsWith (str "EVENT:") line <;>
      rcases hok : startsWith (str "OK:") line <;>
        rcases herr : startsWith (str "ERR:") line <;> simp [hev, hok, herr]

/-- C3 (counterexample): an `ERR:` line whose payload contains the 0x1E
separator is classified with `is_multiline = false` even though the payload
contains the separator, and its `lines` property is the unsplit singleton,
not the literal split — refuting the claim for `ERR:` lines. -/
theorem claim_C3_counterexample :
    parse_response (str "ERR:a\x1eb") = some ⟨false, str "a\x1eb", false⟩
    ∧ (str "a\x1eb").contains MULTI_LINE_SEP = true
    ∧ CLIResponse.lines ⟨false, str "a\x1eb", false⟩ = [str "a\x1eb"]
    ∧ (str "a\x1eb").splitOn MULTI_LINE_SEP = [str "a", str "b"]
    ∧ [str "a\x1eb"] ≠ [str "a", str "b"] := by
  refine ⟨by decide, by decide, by decide, by decide, by decide⟩

/-- C3 (amended): for every classified reply line, an `OK:` reply has
`is_multiline` true iff its payload contains the 0x1E separator, while an
`ERR:` reply always has `is_multiline` false; and whenever `is_multiline` is
true, the `lines` property returns exactly the literal split of the payload
on 0x1E (no trimming of empty segments), so that rejoining the returned
segments with 0x1E recovers the payload. -/
theorem claim_C3_multiline_split (raw : Str) (r : CLIResponse)
    (h : parse_response raw = some r) :
    (r.success = true → r.is_multiline = r.payload.contains MULTI_LINE_SEP)
    ∧ (r.success = false → r.is_multiline = false)
    ∧ (r.is_multiline = true →
        r.lines = r.payload.splitOn MULTI_LINE_SEP
        ∧ [MULTI_LINE_SEP].intercalate r.lines = r.payload) := by
  have hlines : r.is_multiline = true → r.lines = r.payload.splitOn MULTI_LINE_SEP := by
    intro hm
    simp [CLIResponse.lines, hm]
  refine ⟨?_, ?_, fun hm => ⟨hlines hm, ?_⟩⟩
  · intro hs
    unfold parse_response at h
    split at h
    · simp only [Option.some_inj] at h
      subst h
      rfl
    · split at h
      · simp only [Option.some_inj] at h
        subst h
        simp at hs
      · exact absurd h (by simp)
  · intro hs
    unfold parse_response at h
    split at h
    · simp only [Option.some_inj] at h
      subst h
      simp at hs
    · split at h
      · simp only [Option.some_inj] at h
        subst h
        rfl
      · exact absurd h (by simp)
  · rw [hlines hm]
    apply List.intercalate_splitOn

/-- C3 amended, witness: the multi-line split facts at the concrete reply
line `OK:a(0x1E)b`. -/
theorem claim_C3_multiline_split_witness :
    (true = true → true = (str "a\x1eb").contains MULTI_LINE_SEP)
    ∧ (true = false → true = false)
    ∧ (true = true →
        CLIResponse.lines ⟨true, str "a\x1eb", true⟩ = (str "a\x1eb").splitOn MULTI_LINE_SEP
        ∧ [MULTI_LINE_SEP].intercalate (CLIResponse.lines ⟨true, str "a\x1eb", true⟩)
            = str "a\x1eb") :=
  claim_C3_multiline_split (str "OK:a\x1eb") ⟨true, str "a\x1eb", true⟩ (by decide)

/-- C10: for every reply produced by classification whose payload does not
contain the 0x1E separator, the `lines` property returns the one-element list
`[payload]` when the payload is non-empty and `[]` when it is empty — an empty
payload yields zero display lines, never a single empty line. -/
theorem claim_C10_lines_singleline (raw : Str) (r : CLIResponse)
    (h : parse_response raw = some r) (hsep : r.payload.contains MULTI_LINE_SEP = false) :
    r.lines = if r.payload = [] then [] else [r.payload] := by
  have hm : r.is_multiline = false := by
    unfold parse_response at h
    split at h
    · simp only [Option.some_inj] at h
      subst h
      exact hsep
    · split at h
      · simp only [Option.some_inj] at h
        subst h
        rfl
      · exact absurd h (by simp)
  rcases hp : r.payload with _ | ⟨c, cs⟩ <;> simp [CLIResponse.lines, hm, hp]

/-- C10, witness: the classified reply `OK:` (empty payload) yields zero
lines, per the general theorem at that concrete input. -/
theorem claim_C10_lines_singleline_witness :
    CLIResponse.lines ⟨true, [], false⟩ = if ([] : Str) = [] then [] else [[]] :=
  claim_C10_lines_singleline (str "OK:") ⟨true, [], false⟩ (by decide) (by decide)

/-- C1 (counterexample): a read that fails with a timeout raises the
connection-lost error but leaves the connected flag `true` — the claim
requires the flag to be `false` after all three failure kinds. -/
theorem claim_C1_counterexample :
    readLineRaw true [] [ReadEvent.timeout]
      = ReadOutcome.connError ReadFailure.timedOut true []
    ∧ readLineRaw true [] [ReadEvent.timeout]
      ≠ ReadOutcome.connError ReadFailure.timedOut false [] := by
  refine ⟨by decide, by decide⟩

/-- Helper: what a `connError` outcome of `readLineRaw` says about the
connected flag and the buffer. -/
theorem readLineRaw_connError_spec (connected : Bool) (evts : List ReadEvent) :
    ∀ (buffer b : Str) (f : ReadFailure) (c : Bool),
      readLineRaw connected buffer evts = .connError f c b →
      (f = .timedOut → c = connected)
      ∧ (f ≠ .timedOut → c = false)
      ∧ buffer <+: b ∧ '\n' ∉ b := by
  induction evts with
  | nil =>
    intro buffer b f c h
    by_cases hnl : '\n' ∈ buffer <;> simp [readLineRaw, hnl] at h
  | cons e rest ih =>
    intro buffer b f c h
    rw [readLineRaw.eq_def] at h
    by_cases hnl : '\n' ∈ buffer
    · simp [hnl] at h
    · simp only [hnl, if_false] at h
      cases e with
      | timeout =>
        simp only [ReadOutcome.connError.injEq] at h
        obtain ⟨rfl, rfl, rfl⟩ := h
        exact ⟨fun _ => rfl, fun hf => absurd rfl hf, List.prefix_rfl, hnl⟩
      | oserror =>
        simp only [ReadOutcome.connError.injEq] at h
        obtain ⟨rfl, rfl, rfl⟩ := h
        exact ⟨(fun hf => nomatch hf), fun _ => rfl, List.prefix_rfl, hnl⟩
      | chunk d =>
        cases d with
        | nil =>
          simp only [ReadOutcome.connError.injEq] at h
          obtain ⟨rfl, rfl, rfl⟩ := h
          exact ⟨(fun hf => nomatch hf), fun _ => rfl, List.prefix_rfl, hnl⟩
        | cons x xs =>
          obtain ⟨h1, h2, h3, h4⟩ := ih (buffer ++ x :: xs) b f c h
          exact ⟨h1, h2, (List.prefix_append _ _).trans h3, h4⟩

/-- C1 (amended): every failing read (timeout, zero-length read, I/O error)
raises the connection-lost error; the zero-length read and the I/O error
leave the connection not-connected, while the timeout leaves the connected
flag unchanged; in every case the accumulation buffer consistently holds
exactly the data accumulated before the failure — it extends the starting
buffer and contains no complete (newline-terminated) line. -/
theorem claim_C1_read_failures :
    (∀ (connected : Bool) (buffer b : Str) (evts : List ReadEvent)
        (f : ReadFailure) (c : Bool),
      readLineRaw connected buffer evts = .connError f c b →
      (f = .timedOut → c = connected)
      ∧ (f ≠ .timedOut → c = false)
      ∧ buffer <+: b ∧ '\n' ∉ b)
    ∧ (∀ (connected : Bool) (buffer : Str) (evts : List ReadEvent), '\n' ∉ buffer →
      readLineRaw connected buffer (.timeout :: evts)
          = .connError .timedOut connected buffer
      ∧ readLineRaw connected buffer (.oserror :: evts)
          = .connError .socketError false buffer
      ∧ readLineRaw connected buffer (.chunk [] :: evts)
          = .connError .serverClosed false buffer) := by
  constructor
  · intro connected buffer b evts f c h
    exact readLineRaw_connError_spec connected evts buffer b f c h
  · intro connected buffer evts hnl
    refine ⟨?_, ?_, ?_⟩ <;> · rw [readLineRaw.eq_def]; simp [hnl]

/-- C1 amended, witness: the general failure theorem applied to a concrete
stream that delivers one chunk and then an I/O error. -/
theorem claim_C1_read_failures_witness :
    (ReadFailure.socketError = ReadFailure.timedOut → false = true)
    ∧ (ReadFailure.socketError ≠ ReadFailure.timedOut → false = false)
    ∧ ['a'] <+: ['a', 'b'] ∧ '\n' ∉ ['a', 'b'] :=
  claim_C1_read_failures.1 true ['a'] ['a', 'b']
    [ReadEvent.chunk ['b'], ReadEvent.oserror] .socketError false (by decide)

/-- Length bound used by the reader's termination measure. -/
theorem length_dropWhile_le (p : Char → Bool) (l : List Char) :
    (l.dropWhile p).length ≤ l.length := by
  induction l with
  | nil => simp
  | cons a t ih => by_cases h : p a <;> simp [List.dropWhile_cons, h] <;> omega

theorem specLines_no_newline (s : Str) (h : '\n' ∉ s) : specLines s = [] := by
  unfold specLines
  rw [List.splitOn, List.splitOnP_eq_single]
  · rfl
  · intro x hx
    simp only [beq_iff_eq]
    intro hcon
    exact h (hcon ▸ hx)

theorem specLines_split (a r : Str) (ha : '\n' ∉ a) :
    specLines (a ++ '\n' :: r) = a :: specLines r := by
  unfold specLines
  rw [List.splitOn, List.splitOn,
    List.splitOnP_first (· == '\n') a ?ha '\n' (by simp) r]
  case ha =>
    intro x hx
    simp only [beq_iff_eq]
    intro hcon
    exact ha (hcon ▸ hx)
  exact List.dropLast_cons_of_ne_nil (List.splitOnP_ne_nil _ _)

theorem buffer_decomp (buffer : Str) (hnl : '\n' ∈ buffer) :
    buffer = buffer.takeWhile (fun c => c ≠ '\n')
      ++ '\n' :: (buffer.dropWhile (fun c => c ≠ '\n')).tail
    ∧ '\n' ∉ buffer.takeWhile (fun c => c ≠ '\n') := by
  constructor
  · induction buffer with
    | nil => simp at hnl
    | cons a t ih =>
      by_cases ha : a = '\n'
      · subst ha
        simp [List.takeWhile_cons, List.dropWhile_cons]
      · have hmem : '\n' ∈ t := by
          rcases List.mem_cons.1 hnl with h | h
          · exact absurd h.symm ha
          · exact h
        have hda : (decide (a ≠ '\n')) = true := by simp [ha]
        simp only [List.takeWhile_cons, List.dropWhile_cons, hda, if_true, List.cons_append]
        exact congrArg (a :: ·) (ih hmem)
  · intro hmem
    have := List.mem_takeWhile_imp hmem
    simp at this

theorem drainLines_eq_specLines (buffer : Str) (chunks : List Str) :
    drainLines buffer chunks = specLines (buffer ++ chunks.flatten) := by
  induction buffer, chunks using drainLines.induct with
  | case1 buffer chunks hnl ih =>
    rw [drainLines.eq_def, if_pos hnl, ih]
    obtain ⟨hdec, hnin⟩ := buffer_decomp buffer hnl
    conv_rhs => rw [hdec]
    rw [List.append_assoc, List.cons_append, specLines_split _ _ hnin]
  | case2 buffer hnl =>
    rw [drainLines.eq_def, if_neg hnl]
    simp only [List.flatten_nil, List.append_nil]
    exact (specLines_no_newline _ hnl).symm
  | case3 buffer hnl c cs ih =>
    rw [drainLines.eq_def, if_neg hnl]
    simpa [List.append_assoc] using ih

/-- C5: for every byte stream and every partition of it into non-empty
received chunks, repeatedly reading lines through the accumulation buffer
(starting empty) yields exactly the successive newline-delimited lines of
the concatenated stream, each without its trailing newline — the incremental
buffered reader is extensionally equal to the reference definition that
splits the fully concatenated stream on newlines. -/
theorem claim_C5_buffered_reader_refines_split (chunks : List Str)
    (hne : ∀ c ∈ chunks, c ≠ []) :
    drainLines [] chunks = specLines chunks.flatten := by
  simpa using drainLines_eq_specLines [] chunks

/-- C5, witness: a line split across two chunks, with excess bytes of the
next line retained, at a concrete input. -/
theorem claim_C5_buffered_reader_refines_split_witness :
    drainLines [] [str "ab", str "c\nd\ne"] = specLines (str "abc\nd\ne") := by
  have h := claim_C5_buffered_reader_refines_split [str "ab", str "c\nd\ne"]
    (by intro c hc; fin_cases hc <;> simp [str])
  simpa [str] using h

/-- The commands a batch sends are always an order-preserving prefix of the
translated command list. -/
theorem runBatch_sent_isPrefix (st : ReplState) (cmds : List Str)
    (replies : List SendResult) : (runBatch st cmds replies).2 <+: cmds := by
  induction cmds generalizing st replies with
  | nil => simp [runBatch]
  | cons cmd rest ih =>
    cases replies with
    | nil => simp [runBatch]
    | cons res more =>
      cases res with
      | exc => simp [runBatch]
      | resp r =>
        by_cases hs : r.success = true
        · simpa [runBatch, hs, List.cons_prefix_cons] using ih (processReply st cmd r.payload) more
        · simp only [Bool.not_eq_true] at hs
          simpa [runBatch, hs, List.cons_prefix_cons] using ih st more

/-- A character list all of whose members fail `p` is unchanged by `dropWhile`. -/
theorem dropWhile_eq_self_of (p : Char → Bool) (l : Str)
    (h : ∀ c ∈ l, p c = false) : l.dropWhile p = l := by
  cases l with
  | nil => rfl
  | cons a t => simp [List.dropWhile_cons, h a (List.mem_cons_self a t)]

theorem pyStrip_eq_self (l : Str) (h : ∀ c ∈ l, pySpace c = false) :
    pyStrip l = l := by
  unfold pyStrip
  rw [dropWhile_eq_self_of _ _ h, dropWhile_eq_self_of, List.reverse_reverse]
  intro c hc
  exact h c (List.mem_reverse.1 hc)

theorem digit_not_space (c : Char) (h : c.isDigit = true) : pySpace c = false := by
  simp only [Char.isDigit, Bool.and_eq_true, decide_eq_true_eq] at h
  obtain ⟨h1, h2⟩ := h
  cases hc : pySpace c with
  | false => rfl
  | true =>
    exfalso
    simp only [pySpace, Bool.or_eq_true, decide_eq_true_eq] at hc
    rcases hc with ((((rfl | rfl) | rfl) | rfl) | rfl) | rfl <;> simp at h1

theorem digit_ne_colon (c : Char) (h : c.isDigit = true) : c ≠ ':' := by
  simp only [Char.isDigit, Bool.and_eq_true, decide_eq_true_eq] at h
  rintro rfl
  simp at h

theorem parseDigits_digits_aux (ds : Str) (h : ∀ c ∈ ds, c.isDigit = true) :
    ∀ acc : Nat,
      ds.foldl (fun acc c =>
        match acc, decDigit c with
        | some a, some d => some (a * 10 + d)
        | _, _ => none) (some acc)
      = some (ds.foldl (fun a c => a * 10 + (c.toNat - 48)) acc) := by
  induction ds with
  | nil => intro acc; rfl
  | cons d t ih =>
    intro acc
    have hd : d.isDigit = true := h d (List.mem_cons_self d t)
    have ht : ∀ c ∈ t, c.isDigit = true := fun c hc => h c (List.mem_cons_of_mem d hc)
    simp only [List.foldl_cons, decDigit, hd, if_true]
    exact ih ht (acc * 10 + (d.toNat - 48))

theorem pyIntDec_digits (ds : Str) (hne : ds ≠ [])
    (h : ∀ c ∈ ds, c.isDigit = true) :
    pyIntDec ds = some (natOfDec ds : Int) := by
  have hstrip : pyStrip ds = ds :=
    pyStrip_eq_self ds (fun c hc => digit_not_space c (h c hc))
  cases ds with
  | nil => exact absurd rfl hne
  | cons d t =>
    have hd : d.isDigit = true := h d (List.mem_cons_self d t)
    have hdm : d ≠ '-' := by
      rintro rfl
      simp at hd
    have hdp : d ≠ '+' := by
      rintro rfl
      simp at hd
    unfold pyIntDec
    rw [hstrip]
    simp only [List.head?_cons, Option.some_inj, hdm, hdp, if_false]
    rw [parseDigits, if_neg (by simp), parseDigits_digits_aux _ h 0]
    rfl

theorem splitWsAux_no_space (ds : Str) (h : ∀ c ∈ ds, pySpace c = false) :
    ∀ cur : Str, splitWsAux cur ds
      = if cur.reverse ++ ds = [] then [] else [cur.reverse ++ ds] := by
  induction ds with
  | nil =>
    intro cur
    rw [splitWsAux]
    rcases cur with _ | ⟨a, t⟩ <;> simp
  | cons d t ih =>
    intro cur
    rw [splitWsAux]
    have hd : pySpace d = false := h d (List.mem_cons_self d t)
    have ht : ∀ c ∈ t, pySpace c = false := fun c hc => h c (List.mem_cons_of_mem d hc)
    rw [hd]
    simp only [Bool.false_eq_true, if_false, ih ht (d :: cur)]
    have hrw : (d :: cur).reverse ++ t = cur.reverse ++ d :: t := by simp
    rw [hrw]

theorem splitWs_unmount (ds : Str) (hne : ds ≠ [])
    (h : ∀ c ∈ ds, pySpace c = false) :
    splitWs (str "unmount " ++ ds) = [str "unmount", ds] := by
  have hshape : str "unmount " ++ ds
      = 'u' :: 'n' :: 'm' :: 'o' :: 'u' :: 'n' :: 't' :: ' ' :: ds := rfl
  rw [splitWs, hshape]
  rw [splitWsAux, if_neg (by decide)]
  rw [splitWsAux, if_neg (by decide)]
  rw [splitWsAux, if_neg (by decide)]
  rw [splitWsAux, if_neg (by decide)]
  rw [splitWsAux, if_neg (by decide)]
  rw [splitWsAux, if_neg (by decide)]
  rw [splitWsAux, if_neg (by decide)]
  rw [splitWsAux, if_pos (by decide), if_neg (by decide)]
  rw [splitWsAux_no_space ds h []]
  simp only [List.reverse_nil, List.nil_append, hne, if_neg hne]
  rfl

/-- `takeWhile` runs through a block that satisfies `p` and stops at the
first failing element. -/
theorem takeWhile_all_append (p : Char → Bool) (ds : Str) (y : Char) (rest : Str)
    (h : ∀ x ∈ ds, p x = true) (hy : p y = false) :
    (ds ++ y :: rest).takeWhile p = ds := by
  induction ds with
  | nil => simp [List.takeWhile_cons, hy]
  | cons d t ih =>
    have hd := h d (List.mem_cons_self d t)
    simp only [List.cons_append, List.takeWhile_cons, hd, if_true]
    rw [ih (fun x hx => h x (List.mem_cons_of_mem d hx))]

theorem driveFromPayload_shape (ds rest : Str) (hne : ds ≠ [])
    (h : ∀ c ∈ ds, c.isDigit = true) :
    driveFromPayload ('D' :: (ds ++ ':' :: rest)) = some (natOfDec ds : Int) := by
  have hmem : ':' ∈ 'D' :: (ds ++ ':' :: rest) := by
    simp
  rw [driveFromPayload, if_pos hmem]
  have htw : ('D' :: (ds ++ ':' :: rest)).takeWhile (fun c => c ≠ ':') = 'D' :: ds := by
    simp only [List.takeWhile_cons, show (decide ¬('D' = ':')) = true from by decide, if_true]
    rw [takeWhile_all_append]
    · intro x hx
      simpa using digit_ne_colon x (h x hx)
    · simp
  rw [htw]
  simp only [List.drop_one, List.tail_cons]
  exact pyIntDec_digits ds hne h

/-- C9: for every tracked current-drive value, a successful unmount command
naming drive `d` resets the tracked drive to its default 1 exactly when `d`
is the tracked drive and leaves it unchanged otherwise; a successful
drive-change (`dos cd`) updates the tracked drive from the drive number in
the reply payload; and the REPL mode and all other dispatcher state (the
assembly flag and cursor) are unchanged by these updates. -/
theorem claim_C9_drive_tracking (st : ReplState) (cmd payload : Str)
    (hasm : startsWith (str "ASM $") payload = false) :
    ((processReply st cmd payload).mode = st.mode
      ∧ (processReply st cmd payload).inAssembly = st.inAssembly
      ∧ (processReply st cmd payload).assemblyAddr = st.assemblyAddr)
    ∧ (∀ ds : Str, cmd = str "unmount " ++ ds → ds ≠ [] →
        (∀ c ∈ ds, c.isDigit = true) →
        (processReply st cmd payload).currentDrive
          = if (natOfDec ds : Int) = st.currentDrive then 1 else st.currentDrive)
    ∧ (∀ ds rest : Str, startsWith (str "dos cd ") cmd = true →
        payload = 'D' :: (ds ++ ':' :: rest) → ds ≠ [] →
        (∀ c ∈ ds, c.isDigit = true) →
        (processReply st cmd payload).currentDrive = (natOfDec ds : Int)) := by
  refine ⟨?_, ?_, ?_⟩
  · simp [processReply, hasm]
  · intro ds hcmd hne hdig
    subst hcmd
    have hun : startsWith (str "unmount ") (str "unmount " ++ ds) = true :=
      startsWith_append _ _
    have hdos : startsWith (str "dos cd ") (str "unmount " ++ ds) = false := rfl
    have hsp : splitWs (str "unmount " ++ ds) = [str "unmount", ds] :=
      splitWs_unmount ds hne (fun c hc => digit_not_space c (hdig c hc))
    simp only [processReply, hasm, Bool.false_eq_true, if_false]
    rw [applyDriveUpdates]
    simp only [hdos, Bool.false_and, Bool.false_eq_true, if_false, hun, if_true, hsp]
    show (match (([str "unmount", ds] : List Str).get? 1) with
        | some t =>
          match pyIntDec t with
          | some k => if k = st.currentDrive then 1 else st.currentDrive
          | none => st.currentDrive
        | none => st.currentDrive)
      = if (natOfDec ds : Int) = st.currentDrive then 1 else st.currentDrive
    simp only [List.get?_cons_succ, List.get?_cons_zero, pyIntDec_digits ds hne hdig]
  · intro ds rest hdos hpay hne hdig
    subst hpay
    obtain ⟨t, hct⟩ := (startsWith_iff_append _ _).1 hdos
    have hun : startsWith (str "unmount ") cmd = false := by
      rw [hct]
      rfl
    have hD : startsWith (str "D") ('D' :: (ds ++ ':' :: rest)) = true := rfl
    simp only [processReply, hasm, Bool.false_eq_true, if_false]
    rw [applyDriveUpdates]
    simp only [hdos, hD, Bool.and_self, if_true, hun, Bool.false_eq_true, if_false,
      driveFromPayload_shape ds rest hne hdig]

/-- C9, witness: the drive-tracking facts applied at a concrete state with
tracked drive 2, for the command `unmount 2` with an empty success payload. -/
theorem claim_C9_drive_tracking_witness :
    ((processReply ⟨str "dos", 2, false, 0⟩ (str "unmount 2") []).mode = str "dos"
      ∧ (processReply ⟨str "dos", 2, false, 0⟩ (str "unmount 2") []).inAssembly = false
      ∧ (processReply ⟨str "dos", 2, false, 0⟩ (str "unmount 2") []).assemblyAddr = 0)
    ∧ (processReply ⟨str "dos", 2, false, 0⟩ (str "unmount 2") []).currentDrive
        = if ((natOfDec (str "2") : Int) = 2) then 1 else 2 := by
  have h := claim_C9_drive_tracking ⟨str "dos", 2, false, 0⟩ (str "unmount 2") []
    (by decide)
  exact ⟨h.1, h.2.1 (str "2") rfl (by decide) (by decide)⟩

/-- C2 (counterexample): the translated two-command batch of `g $E000`,
whose first reply is the assembly sentinel `ASM $0600`, still sends the
second command — the loop's `continue` moves to the next command of the
batch rather than stopping, refuting "sends none of the remaining
commands". -/
theorem claim_C2_counterexample :
    translateMonitor (str "g $E000") = some [str "registers pc=$E000", str "resume"]
    ∧ (runBatch ⟨str "monitor", 1, false, 0⟩
        [str "registers pc=$E000", str "resume"]
        [.resp ⟨true, str "ASM $0600", false⟩, .resp ⟨true, [], false⟩]).2
      = [str "registers pc=$E000", str "resume"]
    ∧ (runBatch ⟨str "monitor", 1, false, 0⟩
        [str "registers pc=$E000", str "resume"]
        [.resp ⟨true, str "ASM $0600", false⟩, .resp ⟨true, [], false⟩]).1.inAssembly
      = true
    ∧ (runBatch ⟨str "monitor", 1, false, 0⟩
        [str "registers pc=$E000", str "resume"]
        [.resp ⟨true, str "ASM $0600", false⟩, .resp ⟨true, [], false⟩]).1.assemblyAddr
      = 1536
    ∧ [str "registers pc=$E000", str "resume"] ≠ [str "registers pc=$E000"] := by
  refine ⟨by decide, by decide, by decide, by decide, by decide⟩

/-- C2 (amended): when a command's successful reply payload matches the
assembly sentinel shape (`ASM $` marker), the dispatcher transitions to the
assembly sub-mode with the cursor parsed from the payload, skips the normal
rendering and drive tracking for that reply, and then continues sending the
remaining commands of the batch in the updated state. -/
theorem claim_C2_assembly_entry (st : ReplState) (cmd : Str) (rest : List Str)
    (r : CLIResponse) (more : List SendResult)
    (hs : r.success = true) (hasm : startsWith (str "ASM $") r.payload = true) :
    runBatch st (cmd :: rest) (.resp r :: more)
      = ((runBatch { st with inAssembly := true, assemblyAddr := asmAddrOf r.payload }
            rest more).1,
         cmd :: (runBatch { st with inAssembly := true, assemblyAddr := asmAddrOf r.payload }
            rest more).2) := by
  simp only [runBatch, hs, if_true, processReply, hasm]

/-- C2 amended, witness: the assembly transition at a concrete batch. -/
theorem claim_C2_assembly_entry_witness :
    runBatch ⟨str "monitor", 1, false, 0⟩ [str "assemble $0600"]
        [.resp ⟨true, str "ASM $0600", false⟩]
      = ((runBatch ⟨str "monitor", 1, true, 1536⟩ [] []).1,
         str "assemble $0600" :: (runBatch ⟨str "monitor", 1, true, 1536⟩ [] []).2) := by
  have h := claim_C2_assembly_entry ⟨str "monitor", 1, false, 0⟩ (str "assemble $0600") []
    ⟨true, str "ASM $0600", false⟩ [] (by decide) (by decide)
  simpa [show asmAddrOf (str "ASM $0600") = 1536 from by decide] using h

theorem splitWs1_g_arg (a : Str) (hne : a ≠ []) (hnosp : a.dropWhile pySpace = a) :
    splitWs1 ('g' :: ' ' :: a) = [['g'], a] := by
  unfold splitWs1
  simp only [List.dropWhile_cons, List.takeWhile_cons,
    show pySpace 'g' = false from rfl, show pySpace ' ' = true from rfl,
    Bool.not_false, Bool.not_true, Bool.false_eq_true, if_false, if_true, hnosp]
  simp [hne]

/-- C7: in debugger (monitor) mode, `g $E000` translates to exactly
`["registers pc=$E000", "resume"]` in that order; in general, for every
non-blank argument `a`, input `g ` followed by `a` expands to the ordered
pair of a set-instruction-pointer command and a resume command; and the
dispatcher's batch loop sends any batch as an in-order prefix, so the two
commands go out in that order. -/
theorem claim_C7_goto_translation :
    translateMonitor (str "g $E000") = some [str "registers pc=$E000", str "resume"]
    ∧ (∀ a : Str, a ≠ [] → a.dropWhile pySpace = a →
        translateMonitor ('g' :: ' ' :: a)
          = some [str "registers pc=" ++ a, str "resume"])
    ∧ (∀ (st : ReplState) (replies : List SendResult),
        (runBatch st [str "registers pc=$E000", str "resume"] replies).2
          <+: [str "registers pc=$E000", str "resume"]) := by
  refine ⟨by decide, ?_, ?_⟩
  · intro a hne hnosp
    unfold translateMonitor
    rw [splitWs1_g_arg a hne hnosp]
    simp [str, hne]
  · intro st replies
    exact runBatch_sent_isPrefix st _ replies

theorem replaceChar_append (c : Char) (r a b : Str) :
    replaceChar c r (a ++ b) = replaceChar c r a ++ replaceChar c r b := by
  induction a with
  | nil => rfl
  | cons x xs ih =>
    by_cases hx : x = c <;> simp [replaceChar, hx, ih]

theorem replaceChar_of_not_mem (c : Char) (r t : Str) (h : c ∉ t) :
    replaceChar c r t = t := by
  induction t with
  | nil => rfl
  | cons x xs ih =>
    have hx : x ≠ c := fun hc => h (hc ▸ List.mem_cons_self x xs)
    simp only [replaceChar, hx, if_false]
    rw [ih (fun hc => h (List.mem_cons_of_mem x hc))]

theorem replaceChar_cons_self (c : Char) (r xs : Str) :
    replaceChar c r (c :: xs) = r ++ replaceChar c r xs := by
  simp [replaceChar]

theorem replaceChar_cons_ne (c x : Char) (r xs : Str) (h : x ≠ c) :
    replaceChar c r (x :: xs) = x :: replaceChar c r xs := by
  simp [replaceChar, h]

theorem replaceChar_comm (c1 c2 : Char) (r1 r2 : Str) (h12 : c1 ≠ c2)
    (h1 : c2 ∉ r1) (h2 : c1 ∉ r2) (t : Str) :
    replaceChar c2 r2 (replaceChar c1 r1 t)
      = replaceChar c1 r1 (replaceChar c2 r2 t) := by
  induction t with
  | nil => rfl
  | cons x xs ih =>
    by_cases hx1 : x = c1
    · subst hx1
      rw [replaceChar_cons_self, replaceChar_cons_ne c2 x r2 xs h12,
        replaceChar_cons_self, replaceChar_append,
        replaceChar_of_not_mem c2 r2 r1 h1, ih]
    · by_cases hx2 : x = c2
      · subst hx2
        rw [replaceChar_cons_ne c1 x r1 xs (fun hc => hx1 hc),
          replaceChar_cons_self, replaceChar_cons_self, replaceChar_append,
          replaceChar_of_not_mem c1 r1 r2 h2, ih]
      · rw [replaceChar_cons_ne c1 x r1 xs hx1, replaceChar_cons_ne c2 x r2 _ hx2,
          replaceChar_cons_ne c2 x r2 xs hx2, replaceChar_cons_ne c1 x r1 _ hx1, ih]

theorem escape_orders_agree (t : Str) : escape_for_inject t = escapeSpecOrder t := by
  unfold escape_for_inject escapeSpecOrder
  rw [replaceChar_comm '\r' ' ' (str "\\r") (str "\\s") (by decide) (by decide) (by decide),
    replaceChar_comm '\t' ' ' (str "\\t") (str "\\s") (by decide) (by decide) (by decide),
    replaceChar_comm '\n' ' ' (str "\\n") (str "\\s") (by decide) (by decide) (by decide)]

/-- C8: in editor (BASIC) mode with ATASCII rendering enabled, `LIST`
translates to exactly `["basic list atascii"]`; and every input line whose
first token is not a recognized editor command translates to a single inject
command whose argument is the line with backslash escaped first and then
space, newline, tab and carriage-return escapes applied (no double-escaping
of introduced backslashes — the code's substitution order computes the same
function), with the escape sequence for enter appended. -/
theorem claim_C8_basic_translation :
    translateBasic (str "LIST") true = some [str "basic list atascii"]
    ∧ (∀ (line tok : Str) (restParts : List Str) (ata : Bool),
        splitWs1 line = tok :: restParts →
        recognizedBasic (tok.map Char.toUpper) = false →
        translateBasic line ata
          = some [str "inject keys " ++ escapeSpecOrder line ++ str "\\n"])
    ∧ translateBasic (str "10 PRINT \"HI\"") true
        = some [str "inject keys 10\\sPRINT\\s\"HI\"\\n"]
    ∧ (∀ t : Str, escape_for_inject t = escapeSpecOrder t) := by
  refine ⟨by decide, ?_, by decide, escape_orders_agree⟩
  intro line tok restParts ata hsplit hrec
  simp only [recognizedBasic, Bool.or_eq_false_iff, decide_eq_false_iff_not] at hrec
  obtain ⟨⟨⟨⟨⟨⟨⟨⟨⟨⟨⟨⟨n1, n2⟩, n3⟩, n4⟩, n5⟩, n6⟩, n7⟩, n8⟩, n9⟩, n10⟩, n11⟩, n12⟩, n13⟩ := hrec
  unfold translateBasic
  rw [hsplit]
  simp only [if_neg n1, if_neg n2, if_neg n3, if_neg n4, if_neg n5, if_neg n6,
    if_neg n7, if_neg n8, if_neg n9, if_neg n10, if_neg n11, if_neg n12, if_neg n13,
    Option.some_inj, escape_orders_agree]

theorem candLe_trans (a b c : Int × Str) :
    candLe a b = true → candLe b c = true → candLe a c = true := by
  simp only [candLe, decide_eq_true_eq]
  rintro (h1 | ⟨h1, h1p⟩) (h2 | ⟨h2, h2p⟩)
  · exact Or.inl (h1.trans h2)
  · exact Or.inl (h2 ▸ h1)
  · exact Or.inl (h1 ▸ h2)
  · exact Or.inr ⟨h1.trans h2, h1p.trans h2p⟩

theorem candLe_total (a b : Int × Str) : (candLe a b || candLe b a) = true := by
  simp only [candLe, Bool.or_eq_true, decide_eq_true_eq]
  rcases lt_trichotomy a.1 b.1 with h | h | h
  · exact Or.inl (Or.inl h)
  · rcases le_total a.2 b.2 with hp | hp
    · exact Or.inl (Or.inr ⟨h, hp⟩)
    · exact Or.inr (Or.inr ⟨h.symm, hp⟩)
  · exact Or.inr (Or.inl h)

/-- C6: discovery never returns an endpoint whose owning process is not
alive; every stale entry (dead owner) is deleted and excluded from the
candidates; among the live candidates one with the most recent modification
timestamp is returned; and `none` is returned exactly when no live
candidate exists. -/
theorem claim_C6_discover_liveness (alive : Int → Bool) (entries : List ScanEntry) :
    (∀ p : Str, (discover_socket alive entries).1 = some p →
      ∃ e ∈ entries, e.path = p ∧ entryLive alive e = true
        ∧ ∀ e2 ∈ entries, entryLive alive e2 = true → e2.mtime ≤ e.mtime)
    ∧ ((discover_socket alive entries).2
        = (entries.filter (entryStale alive)).map fun e => e.path)
    ∧ (∀ e ∈ entries, entryStale alive e = true →
        e.path ∈ (discover_socket alive entries).2)
    ∧ ((discover_socket alive entries).1 = none ↔
        entries.filter (entryLive alive) = []) := by
  classical
  set cands := (entries.filter (entryLive alive)).map (fun e => (e.mtime, e.path))
    with hcands
  by_cases hemp : cands.isEmpty
  · have hdisc : discover_socket alive entries
        = (none, (entries.filter (entryStale alive)).map fun e => e.path) := by
      rw [discover_socket]
      simp only [← hcands, hemp, if_true]
    refine ⟨?_, ?_, ?_, ?_⟩
    · intro p hp
      rw [hdisc] at hp
      simp at hp
    · rw [hdisc]
    · intro e he hst
      rw [hdisc]
      simpa using ⟨e, ⟨he, hst⟩, rfl⟩
    · rw [hdisc]
      simp only [true_iff]
      rw [List.isEmpty_iff, hcands] at hemp
      exact List.map_eq_nil.1 hemp
  · have hsorted : (cands.mergeSort candLe).Pairwise (fun a b => candLe a b = true) :=
      @List.sorted_mergeSort _ candLe candLe_trans candLe_total cands
    have hperm : ∀ x, x ∈ cands.mergeSort candLe ↔ x ∈ cands := by
      intro x
      exact List.mem_mergeSort
    have hemp2 : cands.isEmpty = false := by
      cases h : cands.isEmpty with
      | false => rfl
      | true => exact absurd h hemp
    obtain ⟨c, restR, hrev⟩ : ∃ c restR, (cands.mergeSort candLe).reverse = c :: restR := by
      have hlen : (cands.mergeSort candLe).length = cands.length :=
        (List.mergeSort_perm cands candLe).length_eq
      have hne : cands ≠ [] := by
        intro hc
        rw [List.isEmpty_iff] at hemp
        exact hemp hc
      cases hr : (cands.mergeSort candLe).reverse with
      | nil =>
        exfalso
        rw [List.reverse_eq_nil_iff] at hr
        rw [hr] at hlen
        exact hne (List.eq_nil_of_length_eq_zero hlen.symm)
      | cons a l => exact ⟨a, l, rfl⟩
    have hdisc : discover_socket alive entries
        = (some c.2, (entries.filter (entryStale alive)).map fun e => e.path) := by
      rw [discover_socket]
      simp only [← hcands, hemp2, Bool.false_eq_true, if_false, hrev, List.head?_cons]
      rfl
    have hcmem : c ∈ cands := by
      have : c ∈ (cands.mergeSort candLe).reverse := by
        rw [hrev]
        exact List.mem_cons_self c restR
      rw [List.mem_reverse] at this
      exact (hperm c).1 this
    have hmax : ∀ x ∈ cands, x.1 ≤ c.1 := by
      intro x hx
      have hxrev : x ∈ c :: restR := by
        rw [← hrev, List.mem_reverse]
        exact (hperm x).2 hx
      rcases List.mem_cons.1 hxrev with rfl | hxr
      · exact le_refl _
      · have hpw : (c :: restR).Pairwise (fun a b => candLe b a = true) := by
          rw [← hrev]
          exact List.pairwise_reverse.2 hsorted
        have := (List.pairwise_cons.1 hpw).1 x hxr
        simp only [candLe, decide_eq_true_eq] at this
        rcases this with h | ⟨h, _⟩
        · exact le_of_lt h
        · exact le_of_eq h
    refine ⟨?_, ?_, ?_, ?_⟩
    · intro p hp
      rw [hdisc] at hp
      simp only [Option.some_inj] at hp
      subst hp
      obtain ⟨e, hef, hep⟩ := List.mem_map.1 hcmem
      obtain ⟨hee, helive⟩ := List.mem_filter.1 hef
      refine ⟨e, hee, ?_, helive, ?_⟩
      · rw [← hep]
      · intro e2 he2 hlive2
        have hx : (e2.mtime, e2.path) ∈ cands :=
          List.mem_map.2 ⟨e2, List.mem_filter.2 ⟨he2, hlive2⟩, rfl⟩
        have := hmax _ hx
        simpa [← hep] using this
    · rw [hdisc]
    · intro e he hst
      rw [hdisc]
      simpa using ⟨e, ⟨he, hst⟩, rfl⟩
    · rw [hdisc]
      constructor
      · intro hcon
        exact absurd hcon (by simp)
      · intro hcon
        exfalso
        rw [List.isEmpty_iff] at hemp
        apply hemp
        rw [hcands, hcon]
        rfl

end Attic